import Mathlib

/-!
Verification of the mapterhorn tile pipeline against its specification.

Shallow embedding conventions:
* Machine floats are modelled as exact rationals (every float value is a
  rational); elevations, raster pixels and projected coordinates are `ℚ`.
* Raster windows are total functions `Fin m → Fin n → ℚ`; the nodata value
  is the sentinel `-9999`.
* The external Gaussian filter (`scipy.ndimage.gaussian_filter`) is kept
  abstract: the merge routine is parameterised over a family
  `G : ℤ → Win m n → Win m n` giving the filter at an integer sigma
  (truncate is fixed at 4 by the caller).  Concrete instances are built
  from an explicit separable reflect-boundary correlation `blur2d`.
* Filesystem state relevant to the merge step is modelled by `MergeDir`
  (presence of the `merge-done` sentinel, of `reprojection.json`, and the
  set of indices `i` with a file `i-3857.tiff` in the tmp folder).
-/

namespace Mapterhorn

/-- Nodata value used throughout internal rasters (spec section 6). -/
def SENTINEL : ℚ := -9999

/-! ## Terrarium encoding (gpu_utils.py, generate_previews.py) -/

/-- numpy `astype(uint8)` applied to a nonnegative float value: truncate
toward zero, then wrap modulo 256.  (For negative inputs the numpy cast is
platform defined; all uses below are at nonnegative values.) -/
def uint8_cast (x : ℚ) : ℕ := (Int.toNat ⌊x⌋) % 256

/-- Python float floor-division `a // b`. -/
def pyfloordiv (a b : ℚ) : ℚ := (⌊a / b⌋ : ℤ)

/-- Python float modulo `a % b` (sign of the divisor; used at positive b). -/
def pymod (a b : ℚ) : ℚ := a - b * (⌊a / b⌋ : ℤ)

/-- Embedding of `optimize_terrarium_encoding` (gpu_utils.py lines 260-265,
CPU path): `v = h + 32768`, `red = uint8(v // 256)`, `green = uint8(v % 256)`,
`blue = uint8((v - floor(v)) * 256)`.  No clamping is performed: the uint8
cast wraps modulo 256. -/
def optimize_terrarium_encoding (h : ℚ) : ℕ × ℕ × ℕ :=
  let v := h + 32768
  (uint8_cast (pyfloordiv v 256), uint8_cast (pymod v 256),
    uint8_cast ((v - (⌊v⌋ : ℤ)) * 256))

/-- Channel formulas as worded by the spec: the same floors, but with each
channel clamped to [0, 255]. -/
def clamp255 (k : ℤ) : ℤ := max 0 (min k 255)

/-- Terrarium encoding as the spec words it (clamped channels); compared
against the source embedding `optimize_terrarium_encoding`. -/
def terrarium_encode_clamped (h : ℚ) : ℤ × ℤ × ℤ :=
  let v := h + 32768
  (clamp255 ⌊v / 256⌋, clamp255 ⌊pymod v 256⌋, clamp255 ⌊(v - (⌊v⌋ : ℤ)) * 256⌋)

/-- Embedding of `decode_terrarium` (generate_previews.py lines 12-23):
`elevation = (R * 256 + G + B / 256) - 32768`. -/
def decode_terrarium (r g b : ℕ) : ℚ := ((r : ℚ) * 256 + (g : ℚ) + (b : ℚ) / 256) - 32768

/-! ## Downsampling reduction (gpu_utils.py; driver absent from src) -/

/-- Embedding of the CPU path of `gpu_accelerated_reshape_mean`
(gpu_utils.py lines 120-121) on one 2x2 block: `reshape(...).mean(axis)`
is the plain arithmetic mean of the four child pixels. -/
def reshape_mean_block (v1 v2 v3 v4 : ℚ) : ℚ := (v1 + v2 + v3 + v4) / 4

/-- Modelled from the spec: the downsampling driver (the `-downsampling`
pipeline stage) is not under src/; per spec section 4.5 the 2x2 reduction is
a mean over valid pixels, SENTINEL (alpha=0) pixels excluded, and the result
is nodata exactly when all four children are nodata.  Validity is carried by
the alpha mask, modelled here as `Option ℚ` (`none` = alpha 0 = SENTINEL). -/
def downsample_block (v1 v2 v3 v4 : Option ℚ) : Option ℚ :=
  let vs := List.filterMap id [v1, v2, v3, v4]
  if vs.isEmpty then none else some (vs.sum / (vs.length : ℚ))

/-! ## Archive tile attribution (bundle.py, eta.py) -/

/-- Web Mercator tile identifier. -/
structure Tile where
  z : ℕ
  x : ℕ
  y : ℕ
deriving DecidableEq

/-- Immediate children of a tile, in mercantile order. -/
def tile_children (t : Tile) : List Tile :=
  [⟨t.z + 1, 2 * t.x, 2 * t.y⟩, ⟨t.z + 1, 2 * t.x + 1, 2 * t.y⟩,
   ⟨t.z + 1, 2 * t.x + 1, 2 * t.y + 1⟩, ⟨t.z + 1, 2 * t.x, 2 * t.y + 1⟩]

/-- Embedding of `mercantile.children(t, zoom = t.z + d)`: all descendants
exactly `d` levels below `t` (tiles at the single zoom `t.z + d`). -/
def children_to_depth (t : Tile) : ℕ → List Tile
  | 0 => [t]
  | d + 1 => (tile_children t).flatMap (fun c => children_to_depth c d)

/-- Embedding of the tile list `create_archive` attributes to the archive
`z-x-y-child_z.pmtiles` (bundle.py lines 96-104): the parent itself when
`z = child_z`, otherwise `mercantile.children(parent, zoom=child_z)`. -/
def create_archive_tiles (z x y cz : ℕ) : List Tile :=
  if z = cz then [⟨z, x, y⟩] else children_to_depth ⟨z, x, y⟩ (cz - z)

/-- Embedding of the per-plan count in `count_children` (eta.py line 18):
`2 ^ (2 * (child_z - z))`. -/
def count_children_one (z cz : ℕ) : ℕ := 2 ^ (2 * (cz - z))

/-- Tile set asserted by the claim: all descendants of the macrotile at all
zooms from `z` through `cz` (the full pyramid). -/
def pyramid_tiles (z x y cz : ℕ) : List Tile :=
  (List.range (cz + 1 - z)).flatMap (fun d => children_to_depth ⟨z, x, y⟩ d)

/-- Cardinality asserted by the claim: `1 + 4 + 16 + ... + 4 ^ (cz - z)`. -/
def pyramid_count (z cz : ℕ) : ℕ := ∑ d ∈ Finset.range (cz + 1 - z), 4 ^ d

/-! ## Guard buffer (aggregation_reproject.py) -/

/-- Python `int()` applied to a float: truncation toward zero. -/
def pyint (x : ℚ) : ℤ := if 0 ≤ x then ⌊x⌋ else -⌊-x⌋

/-- Embedding of `get_resolution` (aggregation_reproject.py lines 23-26):
width of the zoom-`z` tile `(0, 0)` in web mercator meters divided by the
512-pixel tile size; `xmax` is the web mercator half extent. -/
def get_resolution (xmax : ℚ) (zoom : ℕ) : ℚ := (2 * xmax / 2 ^ zoom) / 512

/-- Embedding of the buffer computation in `reproject`
(aggregation_reproject.py lines 92-97): `buffer_pixels` is
`int(B / R)` when the plan has more than one group or more than one source
file in total, else 0.  `B` stands for `utils.macrotile_buffer_3857`
(utils.py is not under src/; the spec describes it as a fixed halo constant
in meters, kept here as a parameter). -/
def reproject_buffer_pixels (numGroups totalFiles : ℕ) (B R : ℚ) : ℤ :=
  if 1 < numGroups ∨ 1 < totalFiles then pyint (B / R) else 0

/-- Embedding of `buffer_3857_rounded` (aggregation_reproject.py line 98). -/
def reproject_buffer_3857 (numGroups totalFiles : ℕ) (B R : ℚ) : ℚ :=
  (reproject_buffer_pixels numGroups totalFiles B R : ℚ) * R

/-- Embedding of the warp target extent (aggregation_reproject.py lines
29-33): tile bounds expanded by the buffer on all four sides. -/
def create_warp_extent (left bottom right top buffer : ℚ) : ℚ × ℚ × ℚ × ℚ :=
  (left - buffer, bottom - buffer, right + buffer, top + buffer)

/-! ## Merge guard and resume behaviour (aggregation_merge.py lines 13-62) -/

/-- Filesystem state of one unit's tmp folder as seen by `merge`:
whether `merge-done` exists, whether `reprojection.json` exists, and the
set of indices `i` such that `i-3857.tiff` exists (glob `*.tiff` counts
these; both reprojected group tiffs and any leftover merged output match
the pattern). -/
structure MergeDir where
  done : Bool
  json : Bool
  tiffs : Finset ℕ
deriving DecidableEq

/-- Outcome of a `merge` call. -/
inductive MergeOutcome where
  | skipDone
  | skipNoJson
  | errNoTiffs
  | shortcutDone
  | merged (inputs : List ℕ) (output : ℕ)
deriving DecidableEq

/-- Embedding of the control flow of `merge` (aggregation_merge.py lines
13-62): return if `merge-done` exists; return if `reprojection.json` is
absent; raise if the glob finds no tiff; touch `merge-done` if it finds one;
otherwise read `i-3857.tiff` for `i` in `range(num_tiff_files)` and write
`num_tiff_files-3857.tiff`. -/
def merge_decision (d : MergeDir) : MergeOutcome :=
  if d.done then .skipDone
  else if !d.json then .skipNoJson
  else
    let N := d.tiffs.card
    if N = 0 then .errNoTiffs
    else if N = 1 then .shortcutDone
    else .merged (List.range N) N

/-- Effect of a `merge` call on the tmp folder: the skip paths and the
error path touch nothing; the shortcut touches `merge-done`; a real merge
creates the output tiff and then `merge-done`. -/
def merge_effect (d : MergeDir) : MergeDir :=
  match merge_decision d with
  | .skipDone => d
  | .skipNoJson => d
  | .errNoTiffs => d
  | .shortcutDone => { d with done := true }
  | .merged _ out => { d with tiffs := insert out d.tiffs, done := true }

/-! ## Scheduler (aggregation_run.py) -/

/-- One dirty work unit as the scheduler sees it: its key (the plan file
path) and whether processing it raises. -/
structure UnitSpec where
  key : ℕ
  fails : Bool
deriving DecidableEq

/-- Embedding of `run` (aggregation_run.py lines 11-21): there is no
try/except, so a failing step raises out of `run`; on success the unit's
`-aggregation.done` sentinel is touched.  The second component records
whether the done sentinel was created. -/
def run_unit (u : UnitSpec) : Except ℕ ℕ × Bool :=
  if u.fails then (Except.error u.key, false) else (Except.ok u.key, true)

/-- Error component of a task result. -/
def errPart (r : Except ℕ ℕ × Bool) : Option ℕ :=
  match r.1 with
  | Except.error e => some e
  | Except.ok _ => none

/-- Embedding of `main` (aggregation_run.py lines 40-42):
`Pool.starmap(run, ...)` executes every task (workers keep drawing tasks
even after one fails), then re-raises the first raised exception when the
results are collected; if none failed it returns the list of results.
The second component records which units created their done sentinel. -/
def agg_main (us : List UnitSpec) : Except ℕ (List ℕ) × List Bool :=
  let rs := us.map run_unit
  (match rs.findSome? errPart with
   | some e => Except.error e
   | none => Except.ok (us.map (fun u => u.key)),
   rs.map (fun r => r.2))

/-! ## Merge window computation (aggregation_merge.py lines 63-116)

The merge loop processes the output raster in 512x512 blocks; for each block
it reads an expanded window (a halo of `overlap = buffer_pixels` pixels on
each side) from every input tiff and computes the merged window as below;
only the interior is written back.  The per-window computation is embedded
here over exact rationals, with the Gaussian filter kept abstract. -/

variable {m n : ℕ}

/-- Raster window: an `m × n` array of rational pixel values. -/
abbrev Win (m n : ℕ) : Type := Fin m → Fin n → ℚ

/-- Boolean mask over an `m × n` window. -/
abbrev Mask (m n : ℕ) : Type := Fin m → Fin n → Bool

/-- Mask lookup at integer coordinates; out-of-range reads are `false`
(scipy `binary_erosion` default `border_value = 0`). -/
def maskAt (B : Mask m n) (i j : ℤ) : Bool :=
  if hi : 0 ≤ i ∧ i < (m : ℤ) then
    if hj : 0 ≤ j ∧ j < (n : ℤ) then
      B ⟨i.toNat, by omega⟩ ⟨j.toNat, by omega⟩
    else false
  else false

/-- Embedding of `ndimage.binary_erosion` with its default 3x3 cross
structuring element and `border_value = 0`: a pixel survives iff it and its
four edge neighbours are set. -/
def binary_erosion (B : Mask m n) : Mask m n := fun i j =>
  maskAt B i j && maskAt B ((i : ℤ) - 1) (j : ℤ) && maskAt B ((i : ℤ) + 1) (j : ℤ) &&
    maskAt B (i : ℤ) ((j : ℤ) - 1) && maskAt B (i : ℤ) ((j : ℤ) + 1)

/-- Data mask of a window: true where the pixel is not SENTINEL
(`merged_tile != -9999`, aggregation_merge.py lines 80, 95, 104). -/
def dataMask (M : Win m n) : Mask m n := fun i j => decide (M i j ≠ SENTINEL)

/-- One-pixel inward boundary of a mask:
`mask & ~binary_erosion(mask)` (aggregation_merge.py lines 81-82). -/
def maskEdge (B : Mask m n) : Mask m n := fun i j => B i j && !(binary_erosion B i j)

/-- Test `-9999 in merged_tile` (aggregation_merge.py lines 76, 92). -/
def hasSentinel (M : Win m n) : Bool := decide (∃ i j, M i j = SENTINEL)

/-- Test `1 in boundary_tile` (aggregation_merge.py line 108). -/
def anyMask (B : Mask m n) : Bool := decide (∃ i j, B i j = true)

/-- Embedding of the copy step (aggregation_merge.py lines 89-90): pixels of
the current tiff are copied into the merged tile exactly where the merged
tile is SENTINEL and the current tiff is not. -/
def copyStep (M C : Win m n) : Win m n := fun i j =>
  if M i j = SENTINEL ∧ C i j ≠ SENTINEL then C i j else M i j

/-- Embedding of the fallback loop over `tiff_filepaths[1:]`
(aggregation_merge.py lines 84-97): copy each lower-priority tiff into the
holes; when no SENTINEL remains, break before accumulating the new
boundary; otherwise OR the new data edge into the boundary mask. -/
def mergeLoop : List (Win m n) → Win m n → Mask m n → Win m n × Mask m n
  | [], M, Bd => (M, Bd)
  | C :: rest, M, Bd =>
    let Mnext := copyStep M C
    if hasSentinel Mnext then
      mergeLoop rest Mnext (fun i j => Bd i j || maskEdge (dataMask Mnext) i j)
    else (Mnext, Bd)

/-- Zero the outermost frame of the boundary mask
(aggregation_merge.py lines 99-102). -/
def zeroRim (B : Mask m n) : Mask m n := fun i j =>
  if i.val = 0 ∨ i.val = m - 1 ∨ j.val = 0 ∨ j.val = n - 1 then false else B i j

/-- Pixel values of the merged window before any seam blending: the fold of
the copy step over the lower-priority tiffs. -/
def mergedVals (t0 : Win m n) (rest : List (Win m n)) : Win m n :=
  rest.foldl copyStep t0

/-- Final boundary mask of a merge window: the accumulated data edges, rim
zeroed, clipped back to the data mask (aggregation_merge.py lines 99-106). -/
def mergeBoundary (t0 : Win m n) (rest : List (Win m n)) : Mask m n :=
  fun i j =>
    zeroRim (mergeLoop rest t0 (maskEdge (dataMask t0))).2 i j &&
      dataMask (mergeLoop rest t0 (maskEdge (dataMask t0))).1 i j

/-- Float cast of a boundary mask (`boundary_tile.astype(float)`). -/
def floatOfMask (B : Mask m n) : Win m n := fun i j => if B i j then 1 else 0

/-- Embedding of `np.clip(x, 0, 1)`. -/
def clip01 (t : ℚ) : ℚ := min (max t 0) 1

/-- Smoothstep shaping `3 t ^ 2 - 2 t ^ 3` (aggregation_merge.py line 114). -/
def smoothstep (t : ℚ) : ℚ := 3 * t ^ 2 - 2 * t ^ 3

/-- Sigma used by the blend (aggregation_merge.py line 110):
`int(overlap / truncate) - 1` with `truncate = 4` and nonnegative integer
`overlap`, i.e. `overlap / 4 - 1` in integers. -/
def merge_sigma (overlap : ℕ) : ℤ := ((overlap / 4 : ℕ) : ℤ) - 1

/-- Sigma as the spec words it: `⌊overlap / 4⌋ - 1`. -/
def spec_sigma (overlap : ℕ) : ℤ := ⌊(overlap : ℚ) / 4⌋ - 1

/-- Embedding of the seam blend (aggregation_merge.py lines 108-116) for a
given filter `G` (the Gaussian at the computed sigma) and divisor `c` (the
float value of `1.0 / (sqrt(2 * pi) * sigma)`): blur the boundary, divide by
`c`, clamp to [0, 1], shape with the smoothstep, then mix the blurred merged
tile with the merged tile. -/
def blendWindow (G : Win m n → Win m n) (c : ℚ) (M : Win m n) (Bd : Mask m n) : Win m n :=
  let bb := fun i j => smoothstep (clip01 (G (floatOfMask Bd) i j / c))
  fun i j => bb i j * G M i j + (1 - bb i j) * M i j

/-- Embedding of the per-window merge computation (aggregation_merge.py
lines 72-116).  `G sigma` stands for `ndimage.gaussian_filter` at integer
`sigma` (truncate 4); `s2p` is the float value of `np.sqrt(2 * np.pi)`;
`overlap` is `buffer_pixels`; `t0` is the window of tiff 0 and `rest` the
windows of the remaining tiffs.  If tiff 0 is already complete the window is
returned as is; otherwise the fallback loop fills holes and, when the final
boundary mask is non-empty, the seam blend rewrites the window. -/
def mergeWindow (G : ℤ → Win m n → Win m n) (s2p : ℚ) (overlap : ℕ)
    (t0 : Win m n) (rest : List (Win m n)) : Win m n :=
  if hasSentinel t0 = false then t0
  else
    let M := (mergeLoop rest t0 (maskEdge (dataMask t0))).1
    let Bd := mergeBoundary t0 rest
    if anyMask Bd = true then
      blendWindow (G (merge_sigma overlap))
        (1 / (s2p * ((merge_sigma overlap : ℤ) : ℚ))) M Bd
    else M

/-- Seam-blend formula exactly as the spec words it (spec section 4.4 step
6): with `sigma = ⌊overlap / 4⌋ - 1`, `Bblur` the Gaussian filter of the
boundary mask divided by `1 / (sqrt(2 pi) sigma)`, clamped to [0, 1] and
shaped by the smoothstep, the result is `Bblur * Mblur + (1 - Bblur) * M`. -/
def blend_spec (G : ℤ → Win m n → Win m n) (s2p : ℚ) (overlap : ℕ)
    (M : Win m n) (Bd : Mask m n) : Win m n :=
  fun i j =>
    let σ := spec_sigma overlap
    let bb := smoothstep (clip01 (G σ (floatOfMask Bd) i j / (1 / (s2p * (σ : ℚ)))))
    bb * G σ M i j + (1 - bb) * M i j

/-- First non-SENTINEL value among the tiff windows at a pixel (SENTINEL
when every tiff is SENTINEL there): the priority order of the groups. -/
def firstVal : List (Win m n) → Fin m → Fin n → ℚ
  | [], _, _ => SENTINEL
  | t :: ts, i, j => if t i j = SENTINEL then firstVal ts i j else t i j

/-! ### Concrete reflect-boundary separable correlation

Used to instantiate the abstract Gaussian filter on concrete inputs.
`scipy.ndimage.gaussian_filter` is a separable correlation along each axis
with the default boundary mode `reflect`. -/

/-- Index folding for the scipy boundary mode `reflect`
(`d c b a | a b c d | d c b a`). -/
def reflectIdx (size : ℕ) (i : ℤ) : ℤ :=
  let p := i % (2 * (size : ℤ))
  if p < (size : ℤ) then p else 2 * (size : ℤ) - 1 - p

/-- Window lookup at integer coordinates (callers pass reflected, hence
in-range, indices; out-of-range reads default to 0). -/
def winAt (A : Win m n) (i j : ℤ) : ℚ :=
  if hi : 0 ≤ i ∧ i < (m : ℤ) then
    if hj : 0 ≤ j ∧ j < (n : ℤ) then
      A ⟨i.toNat, by omega⟩ ⟨j.toNat, by omega⟩
    else 0
  else 0

/-- Correlation with weights `w` of support radius `r` along the second
(column) axis, boundary mode reflect. -/
def blurCols (w : ℤ → ℚ) (r : ℕ) (A : Win m n) : Win m n :=
  fun i j => ∑ k ∈ Finset.Icc (-(r : ℤ)) (r : ℤ),
    w k * winAt A (i : ℤ) (reflectIdx n ((j : ℤ) + k))

/-- Correlation with weights `w` along the first (row) axis, reflect. -/
def blurRows (w : ℤ → ℚ) (r : ℕ) (A : Win m n) : Win m n :=
  fun i j => ∑ k ∈ Finset.Icc (-(r : ℤ)) (r : ℤ),
    w k * winAt A (reflectIdx m ((i : ℤ) + k)) (j : ℤ)

/-- Separable 2-D correlation, reflect boundary: filter along rows, then
along columns (the axis order does not matter for exact arithmetic). -/
def blur2d (w : ℤ → ℚ) (r : ℕ) (A : Win m n) : Win m n :=
  blurCols w r (blurRows w r A)

/-! ### Concrete instances used for witnesses and counterexamples -/

/-- Concrete symmetric positive blur weights of radius 1 (a small discrete
Gaussian), used to instantiate the abstract filter on concrete windows. -/
def w0 : ℤ → ℚ := fun k => if k = 0 then 1 / 2 else if k = 1 ∨ k = -1 then 1 / 4 else 0

/-- Concrete filter family on 3x3 windows (an instance of the abstract
Gaussian filter parameter, constant in sigma). -/
def G3 : ℤ → Win 3 3 → Win 3 3 := fun _ A => blur2d w0 1 A

/-- Concrete 3x3 window with constant elevation 5. -/
def tConst3 : Win 3 3 := fun _ _ => 5

/-- Concrete 3x3 window that is SENTINEL everywhere. -/
def tSent3 : Win 3 3 := fun _ _ => SENTINEL

/-- Concrete 3x3 group-0 window: SENTINEL at pixels (0,0) and (0,1),
elevation 100 elsewhere. -/
def t0c : Win 3 3 := fun i j => if i.val = 0 ∧ j.val ≤ 1 then SENTINEL else 100

/-- Final boundary mask the merge computes for `t0c` with fallback
`tSent3`: exactly the centre pixel. -/
def Bc : Mask 3 3 := fun i j => decide (i.val = 1 ∧ j.val = 1)

/-- Row-blur of the boundary float mask `Bc` under `w0`. -/
def Rc : Win 3 3 := fun i j => if j.val = 1 then (if i.val = 1 then 1 / 2 else 1 / 4) else 0

/-- Row-blur of the window `t0c` under `w0`. -/
def Mc : Win 3 3 := fun i j =>
  if j.val ≤ 1 then
    (if i.val = 0 then -29897 / 4 else if i.val = 1 then -9699 / 4 else 100)
  else 100

/-! ## Helper lemmas -/

theorem sum_Icc_neg_one_one (f : ℤ → ℚ) :
    ∑ k ∈ Finset.Icc (-1 : ℤ) 1, f k = f (-1) + f 0 + f 1 := by
  rw [show Finset.Icc (-1 : ℤ) 1 = {-1, 0, 1} from by decide]
  rw [Finset.sum_insert (by decide), Finset.sum_insert (by decide), Finset.sum_singleton]
  ring

theorem hasSentinel_false_iff (M : Win m n) :
    hasSentinel M = false ↔ ∀ i j, M i j ≠ SENTINEL := by
  simp [hasSentinel]

theorem copyStep_of_no_sentinel (M C : Win m n) (h : hasSentinel M = false) :
    copyStep M C = M := by
  funext i j
  rw [copyStep, if_neg]
  intro hc
  exact (hasSentinel_false_iff M).mp h i j hc.1

theorem foldl_copyStep_of_no_sentinel (rest : List (Win m n)) (M : Win m n)
    (h : hasSentinel M = false) : rest.foldl copyStep M = M := by
  induction rest with
  | nil => rfl
  | cons C rest ih => rw [List.foldl_cons, copyStep_of_no_sentinel M C h, ih]

theorem mergeLoop_fst (rest : List (Win m n)) (M : Win m n) (Bd : Mask m n) :
    (mergeLoop rest M Bd).1 = rest.foldl copyStep M := by
  induction rest generalizing M Bd with
  | nil => rfl
  | cons C rest ih =>
    simp only [mergeLoop, List.foldl_cons]
    by_cases h : hasSentinel (copyStep M C) = true
    · rw [if_pos h]
      exact ih _ _
    · rw [if_neg h]
      have hf : hasSentinel (copyStep M C) = false := by
        cases hh : hasSentinel (copyStep M C)
        · rfl
        · exact absurd hh h
      exact (foldl_copyStep_of_no_sentinel rest _ hf).symm

theorem foldl_copyStep_apply (rest : List (Win m n)) (M : Win m n) (i : Fin m) (j : Fin n) :
    (rest.foldl copyStep M) i j = firstVal (M :: rest) i j := by
  induction rest generalizing M with
  | nil =>
    rw [List.foldl_nil, firstVal]
    split
    · next h => exact h
    · rfl
  | cons C rest ih =>
    rw [List.foldl_cons, ih]
    by_cases hM : M i j = SENTINEL
    · by_cases hC : C i j = SENTINEL
      · simp [firstVal, copyStep, hM, hC]
      · simp [firstVal, copyStep, hM, hC]
    · simp [firstVal, copyStep, hM]

theorem mergedVals_apply (t0 : Win m n) (rest : List (Win m n)) (i : Fin m) (j : Fin n) :
    mergedVals t0 rest i j = firstVal (t0 :: rest) i j :=
  foldl_copyStep_apply rest t0 i j

theorem firstVal_eq_sentinel_iff (ts : List (Win m n)) (i : Fin m) (j : Fin n) :
    firstVal ts i j = SENTINEL ↔ ∀ t ∈ ts, t i j = SENTINEL := by
  induction ts with
  | nil => simp [firstVal]
  | cons t ts ih =>
    rw [firstVal]
    by_cases h : t i j = SENTINEL
    · rw [if_pos h, ih]
      constructor
      · intro hall s hs
        rcases List.mem_cons.mp hs with rfl | hs
        · exact h
        · exact hall s hs
      · intro hall s hs
        exact hall s (List.mem_cons_of_mem t hs)
    · rw [if_neg h]
      constructor
      · intro hc
        exact absurd hc h
      · intro hall
        exact absurd (hall t (List.mem_cons_self t ts)) h

theorem merge_sigma_eq_spec_sigma (overlap : ℕ) :
    merge_sigma overlap = spec_sigma overlap := by
  rw [merge_sigma, spec_sigma]
  congr 1
  rw [← Int.natCast_floor_eq_floor (by positivity), Nat.floor_div_ofNat, Nat.floor_natCast]

theorem mergeWindow_eq_of_blur_zero (G : ℤ → Win m n → Win m n) (s2p : ℚ) (overlap : ℕ)
    (t0 : Win m n) (rest : List (Win m n)) (i : Fin m) (j : Fin n)
    (hG : G (merge_sigma overlap) (floatOfMask (mergeBoundary t0 rest)) i j = 0) :
    mergeWindow G s2p overlap t0 rest i j = mergedVals t0 rest i j := by
  by_cases h0 : hasSentinel t0 = false
  · rw [mergedVals, foldl_copyStep_of_no_sentinel rest t0 h0]
    unfold mergeWindow
    rw [if_pos h0]
  · unfold mergeWindow
    rw [if_neg h0]
    by_cases hb : anyMask (mergeBoundary t0 rest) = true
    · rw [if_pos hb]
      simp only [blendWindow, hG]
      rw [zero_div, show clip01 0 = 0 from by rw [clip01]; norm_num,
        show smoothstep 0 = 0 from by rw [smoothstep]; norm_num]
      rw [mergeLoop_fst, ← mergedVals]
      ring
    · rw [if_neg hb, mergeLoop_fst, mergedVals]

theorem mergeBoundary_tConst3 : mergeBoundary tConst3 [tSent3] = (fun _ _ => false) := by
  decide

theorem floatOfMask_false : floatOfMask (fun _ _ => false : Mask m n) = fun _ _ => 0 := rfl

theorem blurRows_zero (w : ℤ → ℚ) (r : ℕ) :
    blurRows w r (fun _ _ => (0 : ℚ) : Win m n) = fun _ _ => 0 := by
  funext i j
  simp [blurRows, winAt]

theorem blurCols_zero (w : ℤ → ℚ) (r : ℕ) :
    blurCols w r (fun _ _ => (0 : ℚ) : Win m n) = fun _ _ => 0 := by
  funext i j
  simp [blurCols, winAt]

theorem blur2d_zero (w : ℤ → ℚ) (r : ℕ) :
    blur2d w r (fun _ _ => (0 : ℚ) : Win m n) = fun _ _ => 0 := by
  rw [blur2d, blurRows_zero, blurCols_zero]

set_option maxRecDepth 10000 in
theorem blurRows_Bc : blurRows w0 1 (floatOfMask Bc) = Rc := by
  funext i j
  fin_cases i <;> fin_cases j <;>
    (simp only [blurRows, Nat.cast_one]
     rw [sum_Icc_neg_one_one]
     norm_num [winAt, reflectIdx, w0, floatOfMask, Bc, Rc]
     all_goals norm_num [show Int.toNat 2 = 2 from rfl])

set_option maxRecDepth 10000 in
theorem blurRows_t0c : blurRows w0 1 t0c = Mc := by
  funext i j
  fin_cases i <;> fin_cases j <;>
    (simp only [blurRows, Nat.cast_one]
     rw [sum_Icc_neg_one_one]
     norm_num [winAt, reflectIdx, w0, t0c, Mc, SENTINEL])

set_option maxRecDepth 10000 in
theorem blur_Bc_eval : blur2d w0 1 (floatOfMask Bc) 0 1 = 1 / 8 := by
  rw [blur2d, blurRows_Bc]
  simp only [blurCols, Nat.cast_one]
  rw [sum_Icc_neg_one_one]
  norm_num [winAt, reflectIdx, w0, Rc]
  all_goals norm_num [show Int.toNat 2 = 2 from rfl]

set_option maxRecDepth 10000 in
theorem blur_t0c_eval : blur2d w0 1 t0c 0 1 = -89291 / 16 := by
  rw [blur2d, blurRows_t0c]
  simp only [blurCols, Nat.cast_one]
  rw [sum_Icc_neg_one_one]
  norm_num [winAt, reflectIdx, w0, Mc]

/-! ## Claim theorems -/

/-- C1 (amended): at every pixel where the blurred boundary weight
vanishes (in particular whenever no seam blend runs), the merged window
equals the pure priority fill `mergedVals`, and the priority fill holds
SENTINEL exactly where every group raster holds SENTINEL.  The original
claim fails inside the seam-blending neighbourhood: there an all-SENTINEL
pixel can take a non-SENTINEL value (see the counterexample). -/
theorem merge_nodata_flow (G : ℤ → Win m n → Win m n) (s2p : ℚ) (overlap : ℕ)
    (t0 : Win m n) (rest : List (Win m n)) (i : Fin m) (j : Fin n)
    (hG : G (merge_sigma overlap) (floatOfMask (mergeBoundary t0 rest)) i j = 0) :
    mergeWindow G s2p overlap t0 rest i j = mergedVals t0 rest i j ∧
      (mergedVals t0 rest i j = SENTINEL ↔ ∀ t ∈ t0 :: rest, t i j = SENTINEL) := by
  refine ⟨mergeWindow_eq_of_blur_zero G s2p overlap t0 rest i j hG, ?_⟩
  rw [mergedVals_apply]
  exact firstVal_eq_sentinel_iff (t0 :: rest) i j

/-- Witness for C1 at a concrete window with empty boundary mask. -/
theorem merge_nodata_flow_witness :
    G3 (merge_sigma 8) (floatOfMask (mergeBoundary tConst3 [tSent3])) 1 1 = 0 ∧
      (mergeWindow G3 4 8 tConst3 [tSent3] 1 1 = mergedVals tConst3 [tSent3] 1 1 ∧
        (mergedVals tConst3 [tSent3] 1 1 = SENTINEL ↔
          ∀ t ∈ tConst3 :: [tSent3], t 1 1 = SENTINEL)) := by
  have hG : G3 (merge_sigma 8) (floatOfMask (mergeBoundary tConst3 [tSent3])) 1 1 = 0 := by
    simp [G3, mergeBoundary_tConst3, floatOfMask_false, blur2d_zero]
  exact ⟨hG, merge_nodata_flow G3 4 8 tConst3 [tSent3] 1 1 hG⟩

/-- Counterexample to C1 as stated: in the window `t0c` merged with the
all-SENTINEL fallback `tSent3`, the pixel (0,1) is SENTINEL in every group
raster, yet the seam blend rewrites it to a non-SENTINEL value. -/
theorem merge_nodata_flow_counterexample :
    t0c 0 1 = SENTINEL ∧ tSent3 0 1 = SENTINEL ∧
      mergeWindow G3 4 8 t0c [tSent3] 0 1 ≠ SENTINEL := by
  refine ⟨by decide, by decide, ?_⟩
  have hM : (mergeLoop [tSent3] t0c (maskEdge (dataMask t0c))).1 = t0c := by decide
  have hBd : mergeBoundary t0c [tSent3] = Bc := by decide
  have hb : anyMask (mergeBoundary t0c [tSent3]) = true := by decide
  have h0 : ¬hasSentinel t0c = false := by decide
  have hσ : merge_sigma 8 = 1 := by decide
  unfold mergeWindow
  rw [if_neg h0, if_pos hb, hM, hBd, hσ]
  simp only [blendWindow, G3]
  rw [blur_Bc_eval, blur_t0c_eval]
  norm_num [smoothstep, clip01, t0c, SENTINEL, min_def, max_def]

/-- C2 (confirmed): at every pixel holding group-0 data that lies outside
the support of the blurred seam boundary, the merged window equals group
0's value; and the priority fill copies a lower-priority group's pixel
exactly where every earlier group holds SENTINEL and that group does not
(the first non-SENTINEL value in priority order). -/
theorem merge_group_priority (G : ℤ → Win m n → Win m n) (s2p : ℚ) (overlap : ℕ)
    (t0 : Win m n) (rest : List (Win m n)) (i : Fin m) (j : Fin n)
    (h0 : t0 i j ≠ SENTINEL)
    (hG : G (merge_sigma overlap) (floatOfMask (mergeBoundary t0 rest)) i j = 0) :
    mergeWindow G s2p overlap t0 rest i j = t0 i j ∧
      ∀ (p : Fin m) (q : Fin n), mergedVals t0 rest p q = firstVal (t0 :: rest) p q := by
  refine ⟨?_, fun p q => mergedVals_apply t0 rest p q⟩
  rw [mergeWindow_eq_of_blur_zero G s2p overlap t0 rest i j hG, mergedVals_apply,
    firstVal, if_neg h0]

/-- Witness for C2 at a concrete window. -/
theorem merge_group_priority_witness :
    tConst3 1 1 ≠ SENTINEL ∧ mergeWindow G3 4 8 tConst3 [tSent3] 1 1 = tConst3 1 1 := by
  have hG : G3 (merge_sigma 8) (floatOfMask (mergeBoundary tConst3 [tSent3])) 1 1 = 0 := by
    simp [G3, mergeBoundary_tConst3, floatOfMask_false, blur2d_zero]
  exact ⟨by decide,
    (merge_group_priority G3 4 8 tConst3 [tSent3] 1 1 (by decide) hG).1⟩

/-- C3 (confirmed): whenever tiff 0 has a SENTINEL pixel and the final
boundary mask is non-empty, the merged window is exactly the spec formula
`Bblur * Mblur + (1 - Bblur) * M` with `sigma = ⌊overlap / 4⌋ - 1`,
`truncate = 4`, `Bblur` the filtered boundary divided by
`1 / (sqrt(2 pi) sigma)`, clamped to [0, 1] and shaped by the smoothstep
`3 t ^ 2 - 2 t ^ 3`. -/
theorem merge_blend_formula (G : ℤ → Win m n → Win m n) (s2p : ℚ) (overlap : ℕ)
    (t0 : Win m n) (rest : List (Win m n))
    (hs : hasSentinel t0 = true)
    (hb : anyMask (mergeBoundary t0 rest) = true) :
    mergeWindow G s2p overlap t0 rest =
      blend_spec G s2p overlap (mergedVals t0 rest) (mergeBoundary t0 rest) := by
  funext i j
  unfold mergeWindow
  rw [if_neg (by simp [hs]), if_pos hb]
  simp only [blendWindow, blend_spec, merge_sigma_eq_spec_sigma, mergeLoop_fst, mergedVals]

/-- Witness for C3 at a concrete window with a non-empty boundary. -/
theorem merge_blend_formula_witness :
    hasSentinel t0c = true ∧ anyMask (mergeBoundary t0c [tSent3]) = true ∧
      mergeWindow G3 4 8 t0c [tSent3] =
        blend_spec G3 4 8 (mergedVals t0c [tSent3]) (mergeBoundary t0c [tSent3]) :=
  ⟨by decide, by decide, merge_blend_formula G3 4 8 t0c [tSent3] (by decide) (by decide)⟩

/-- C4 (code bug): after reprojecting two groups, a clean merge reads
tiffs 0 and 1 and writes `2-3857.tiff`; but if a merge is interrupted
mid-write, its partial output `2-3857.tiff` stays in the tmp folder, and
the re-run counts three tiffs, reads the partial output back as a third
input, and writes `3-3857.tiff` — not the same set of reprojected tiffs
the first run warped, contradicting the resume contract. -/
theorem merge_resume_reads_partial_output :
    merge_decision ⟨false, true, {0, 1}⟩ = MergeOutcome.merged [0, 1] 2 ∧
      merge_decision ⟨false, true, {0, 1, 2}⟩ = MergeOutcome.merged [0, 1, 2] 3 ∧
      (2 : ℕ) ∈ ({0, 1, 2} : Finset ℕ) ∧ [0, 1, 2] ≠ ([0, 1] : List ℕ) ∧
      merge_effect ⟨false, true, {0, 1, 2}⟩ = ⟨true, true, {3, 0, 1, 2}⟩ := by
  decide

/-- C10 (confirmed): merge is a no-op returning normally when `merge-done`
exists or `reprojection.json` is absent, and raises before touching any
file when the json exists but the tmp folder holds no tiff. -/
theorem merge_guard_behavior (d : MergeDir) :
    (d.done = true → merge_decision d = MergeOutcome.skipDone ∧ merge_effect d = d) ∧
      (d.done = false → d.json = false →
        merge_decision d = MergeOutcome.skipNoJson ∧ merge_effect d = d) ∧
      (d.done = false → d.json = true → d.tiffs = ∅ →
        merge_decision d = MergeOutcome.errNoTiffs ∧ merge_effect d = d) := by
  refine ⟨?_, ?_, ?_⟩
  · intro h1
    have hdec : merge_decision d = MergeOutcome.skipDone := by
      simp [merge_decision, h1]
    exact ⟨hdec, by simp [merge_effect, hdec]⟩
  · intro h1 h2
    have hdec : merge_decision d = MergeOutcome.skipNoJson := by
      simp [merge_decision, h1, h2]
    exact ⟨hdec, by simp [merge_effect, hdec]⟩
  · intro h1 h2 h3
    have hdec : merge_decision d = MergeOutcome.errNoTiffs := by
      simp [merge_decision, h1, h2, h3]
    exact ⟨hdec, by simp [merge_effect, hdec]⟩

/-- Witness for C10 on concrete tmp-folder states. -/
theorem merge_guard_behavior_witness :
    merge_effect ⟨true, false, {0}⟩ = ⟨true, false, {0}⟩ ∧
      merge_decision ⟨false, false, {0}⟩ = MergeOutcome.skipNoJson ∧
      merge_decision ⟨false, true, ∅⟩ = MergeOutcome.errNoTiffs :=
  ⟨((merge_guard_behavior ⟨true, false, {0}⟩).1 rfl).2,
   ((merge_guard_behavior ⟨false, false, {0}⟩).2.1 rfl rfl).1,
   ((merge_guard_behavior ⟨false, true, ∅⟩).2.2 rfl rfl rfl).1⟩

theorem findSome_errPart (us : List UnitSpec) :
    (us.map run_unit).findSome? errPart =
      Option.map (fun u => u.key) (us.find? fun v => v.fails) := by
  induction us with
  | nil => rfl
  | cons u us ih =>
    rw [List.map_cons, List.findSome?_cons]
    cases hu : u.fails
    · rw [List.find?_cons_of_neg _ (by simp [hu])]
      simp [run_unit, errPart, hu, ih]
    · rw [List.find?_cons_of_pos _ (by simp [hu])]
      simp [run_unit, errPart, hu]

/-- C9 (amended): per-unit errors are not caught at the scheduler
boundary: the pool run returns the plan keys exactly when every unit
succeeds, re-raises the first failing unit's error otherwise (so no
failed-key report is produced), and still executes every unit — each
unit's done sentinel is created iff that unit itself succeeded,
independent of other units' failures; nothing negative is persisted. -/
theorem scheduler_failure_propagation (us : List UnitSpec) :
    ((agg_main us).1 = Except.ok (us.map fun u => u.key) ↔ ∀ u ∈ us, u.fails = false) ∧
      (∀ u : UnitSpec, us.find? (fun v => v.fails) = some u →
        (agg_main us).1 = Except.error u.key) ∧
      (agg_main us).2 = us.map fun u => !u.fails := by
  refine ⟨?_, ?_, ?_⟩
  · cases hfind : us.find? (fun v => v.fails) with
    | none =>
      have hall := List.find?_eq_none.mp hfind
      constructor
      · intro _ u hu
        simpa using hall u hu
      · intro _
        simp [agg_main, findSome_errPart, hfind]
    | some u =>
      have hu : u.fails = true := List.find?_some hfind
      have hmem : u ∈ us := List.mem_of_find?_eq_some hfind
      constructor
      · intro hok
        rw [agg_main] at hok
        simp [findSome_errPart, hfind] at hok
      · intro hall
        exact absurd (hall u hmem) (by simp [hu])
  · intro u hu
    simp [agg_main, findSome_errPart, hu]
  · rw [agg_main]
    simp only [List.map_map]
    apply List.map_congr_left
    intro u _
    rw [Function.comp_apply, run_unit]
    cases hu : u.fails <;> simp [hu]

/-- Witness for C9: a failing first unit makes the pool run error with
that unit's key; an all-success run returns the key list. -/
theorem scheduler_failure_propagation_witness :
    (agg_main [⟨1, true⟩, ⟨2, false⟩]).1 = Except.error 1 ∧
      (agg_main [⟨3, false⟩]).1 = Except.ok [3] :=
  ⟨(scheduler_failure_propagation [⟨1, true⟩, ⟨2, false⟩]).2.1 ⟨1, true⟩ (by decide),
   (scheduler_failure_propagation [⟨3, false⟩]).1.mpr (by decide)⟩

/-- Counterexample to C9 as stated: with units 1 (failing) and 2
(succeeding), the scheduler run does not complete normally with a
failed-key report — it re-raises unit 1's error. -/
theorem scheduler_failure_counterexample :
    (agg_main [⟨1, true⟩, ⟨2, false⟩]).1 = Except.error 1 ∧
      ∀ ks : List ℕ, (agg_main [⟨1, true⟩, ⟨2, false⟩]).1 ≠ Except.ok ks := by
  refine ⟨rfl, fun ks h => ?_⟩
  rw [show (agg_main [⟨1, true⟩, ⟨2, false⟩]).1 = Except.error 1 from rfl] at h
  exact Except.noConfusion h

theorem get_resolution_pos (xmax : ℚ) (hx : 0 < xmax) (zoom : ℕ) :
    0 < get_resolution xmax zoom := by
  rw [get_resolution]
  positivity

/-- C6 (amended): with more than one group or more than one source file,
`buffer_pixels` is the truncation `⌊B / R⌋` of the halo constant over the
resolution (Python `int`, not `round`), `buffer_3857` is
`buffer_pixels * R`, and the warp extent grows by that amount on all four
sides; otherwise `buffer_pixels = 0` and the extent is exactly the tile
bounds.  `B` is the halo constant `utils.macrotile_buffer_3857` (utils.py
is not under src/), kept as a nonnegative parameter. -/
theorem reproject_buffer_behavior (numGroups totalFiles : ℕ) (B R : ℚ)
    (hB : 0 ≤ B) (hR : 0 < R) :
    (1 < numGroups ∨ 1 < totalFiles →
      reproject_buffer_pixels numGroups totalFiles B R = ⌊B / R⌋ ∧
        ∀ l b r t : ℚ,
          create_warp_extent l b r t (reproject_buffer_3857 numGroups totalFiles B R) =
            (l - (⌊B / R⌋ : ℚ) * R, b - (⌊B / R⌋ : ℚ) * R,
              r + (⌊B / R⌋ : ℚ) * R, t + (⌊B / R⌋ : ℚ) * R)) ∧
      (¬(1 < numGroups ∨ 1 < totalFiles) →
        reproject_buffer_pixels numGroups totalFiles B R = 0 ∧
          ∀ l b r t : ℚ,
            create_warp_extent l b r t (reproject_buffer_3857 numGroups totalFiles B R) =
              (l, b, r, t)) := by
  constructor
  · intro hmulti
    have hpix : reproject_buffer_pixels numGroups totalFiles B R = ⌊B / R⌋ := by
      rw [reproject_buffer_pixels, if_pos hmulti, pyint,
        if_pos (div_nonneg hB hR.le)]
    exact ⟨hpix, fun l b r t => by
      rw [create_warp_extent, reproject_buffer_3857, hpix]⟩
  · intro hmulti
    have hpix : reproject_buffer_pixels numGroups totalFiles B R = 0 := by
      rw [reproject_buffer_pixels, if_neg hmulti]
    refine ⟨hpix, fun l b r t => ?_⟩
    rw [create_warp_extent, reproject_buffer_3857, hpix]
    norm_num

/-- Witness for C6 at a concrete multi-group plan and a single-file plan. -/
theorem reproject_buffer_behavior_witness :
    reproject_buffer_pixels 2 2 3 2 = ⌊(3 : ℚ) / 2⌋ ∧
      reproject_buffer_pixels 1 1 3 2 = 0 :=
  ⟨((reproject_buffer_behavior 2 2 3 2 (by decide) (by decide)).1 (by decide)).1,
   ((reproject_buffer_behavior 1 1 3 2 (by decide) (by decide)).2 (by decide)).1⟩

/-- Counterexample to C6 as stated: for `B = 3`, `R = 2` the code records
`buffer_pixels = int(3/2) = 1` while the claimed `round(3/2)` is 2. -/
theorem reproject_buffer_counterexample :
    reproject_buffer_pixels 2 2 3 2 = 1 ∧ round ((3 : ℚ) / 2) = 2 ∧ (1 : ℤ) ≠ 2 := by
  refine ⟨?_, ?_, by decide⟩
  · rw [reproject_buffer_pixels, if_pos (by norm_num), pyint, if_pos (by norm_num)]
    exact Int.floor_eq_iff.mpr ⟨by norm_num, by norm_num⟩
  · rw [round_eq, show (3 : ℚ) / 2 + 1 / 2 = 2 from by norm_num]
    exact Int.floor_eq_iff.mpr ⟨by norm_num, by norm_num⟩

/-- C7 (confirmed, spec-modelled): the 2x2 downsampling reduction yields
nodata exactly when all four children are nodata, otherwise the exact
arithmetic mean of the valid children (SENTINEL pixels excluded, not
zero-filled); when all four children are valid it coincides with the
plain `reshape(...).mean` of `gpu_accelerated_reshape_mean`. -/
theorem downsample_valid_mean (v1 v2 v3 v4 : Option ℚ) :
    (downsample_block v1 v2 v3 v4 = none ↔
        v1 = none ∧ v2 = none ∧ v3 = none ∧ v4 = none) ∧
      (∀ u : ℚ, downsample_block v1 v2 v3 v4 = some u →
        u = (List.filterMap id [v1, v2, v3, v4]).sum /
          ((List.filterMap id [v1, v2, v3, v4]).length : ℚ)) ∧
      (∀ a b c d : ℚ, v1 = some a → v2 = some b → v3 = some c → v4 = some d →
        downsample_block v1 v2 v3 v4 = some (reshape_mean_block a b c d)) := by
  refine ⟨?_, ?_, ?_⟩
  · rcases v1 with _ | a <;> rcases v2 with _ | b <;> rcases v3 with _ | c <;>
      rcases v4 with _ | d <;> simp [downsample_block]
  · intro u hu
    rcases v1 with _ | a <;> rcases v2 with _ | b <;> rcases v3 with _ | c <;>
      rcases v4 with _ | d <;> simp_all [downsample_block]
  · rintro a b c d rfl rfl rfl rfl
    rw [downsample_block]
    simp only [List.filterMap_cons, id_eq, List.filterMap_nil]
    rw [if_neg (by simp)]
    rw [reshape_mean_block]
    norm_num
    ring

/-- Witness for C7: the reduction of four nodata children is nodata. -/
theorem downsample_valid_mean_witness :
    downsample_block (none : Option ℚ) none none none = none :=
  (downsample_valid_mean none none none none).1.mpr ⟨rfl, rfl, rfl, rfl⟩

theorem length_children_to_depth (d : ℕ) (t : Tile) :
    (children_to_depth t d).length = 4 ^ d := by
  induction d generalizing t with
  | zero => rfl
  | succ d ih =>
    rw [children_to_depth, List.length_flatMap]
    simp only [tile_children, List.map_cons, List.map_nil, Function.comp_apply, ih,
      List.sum_cons, List.sum_nil]
    ring

theorem mem_children_to_depth (d : ℕ) (t s : Tile) :
    s ∈ children_to_depth t d ↔
      s.z = t.z + d ∧ s.x / 2 ^ d = t.x ∧ s.y / 2 ^ d = t.y := by
  induction d generalizing t with
  | zero =>
    rw [children_to_depth, List.mem_singleton]
    constructor
    · rintro rfl
      exact ⟨rfl, by simp, by simp⟩
    · rintro ⟨hz, hx, hy⟩
      cases s; cases t
      simp_all
  | succ d ih =>
    rw [children_to_depth, List.mem_flatMap]
    have hpow : (2 : ℕ) ^ (d + 1) = 2 ^ d * 2 := pow_succ 2 d
    constructor
    · rintro ⟨c, hc, hs⟩
      rw [ih] at hs
      obtain ⟨hz, hx, hy⟩ := hs
      have hdx : s.x / 2 ^ (d + 1) = s.x / 2 ^ d / 2 := by
        rw [hpow, Nat.div_div_eq_div_mul]
      have hdy : s.y / 2 ^ (d + 1) = s.y / 2 ^ d / 2 := by
        rw [hpow, Nat.div_div_eq_div_mul]
      rw [tile_children] at hc
      simp only [List.mem_cons, List.not_mem_nil, or_false] at hc
      rcases hc with rfl | rfl | rfl | rfl
      · have hz2 : s.z = t.z + 1 + d := hz
        have hx2 : s.x / 2 ^ d = 2 * t.x := hx
        have hy2 : s.y / 2 ^ d = 2 * t.y := hy
        exact ⟨by omega, by rw [hdx]; omega, by rw [hdy]; omega⟩
      · have hz2 : s.z = t.z + 1 + d := hz
        have hx2 : s.x / 2 ^ d = 2 * t.x + 1 := hx
        have hy2 : s.y / 2 ^ d = 2 * t.y := hy
        exact ⟨by omega, by rw [hdx]; omega, by rw [hdy]; omega⟩
      · have hz2 : s.z = t.z + 1 + d := hz
        have hx2 : s.x / 2 ^ d = 2 * t.x + 1 := hx
        have hy2 : s.y / 2 ^ d = 2 * t.y + 1 := hy
        exact ⟨by omega, by rw [hdx]; omega, by rw [hdy]; omega⟩
      · have hz2 : s.z = t.z + 1 + d := hz
        have hx2 : s.x / 2 ^ d = 2 * t.x := hx
        have hy2 : s.y / 2 ^ d = 2 * t.y + 1 := hy
        exact ⟨by omega, by rw [hdx]; omega, by rw [hdy]; omega⟩
    · rintro ⟨hz, hx, hy⟩
      have hdx : s.x / 2 ^ d / 2 = t.x := by
        rw [Nat.div_div_eq_div_mul, ← hpow]; exact hx
      have hdy : s.y / 2 ^ d / 2 = t.y := by
        rw [Nat.div_div_eq_div_mul, ← hpow]; exact hy
      have hx2 : s.x / 2 ^ d = 2 * t.x ∨ s.x / 2 ^ d = 2 * t.x + 1 := by omega
      have hy2 : s.y / 2 ^ d = 2 * t.y ∨ s.y / 2 ^ d = 2 * t.y + 1 := by omega
      rcases hx2 with hx2 | hx2 <;> rcases hy2 with hy2 | hy2
      · exact ⟨⟨t.z + 1, 2 * t.x, 2 * t.y⟩, by simp [tile_children],
          (ih _).mpr ⟨by show s.z = t.z + 1 + d; omega, hx2, hy2⟩⟩
      · exact ⟨⟨t.z + 1, 2 * t.x, 2 * t.y + 1⟩, by simp [tile_children],
          (ih _).mpr ⟨by show s.z = t.z + 1 + d; omega, hx2, hy2⟩⟩
      · exact ⟨⟨t.z + 1, 2 * t.x + 1, 2 * t.y⟩, by simp [tile_children],
          (ih _).mpr ⟨by show s.z = t.z + 1 + d; omega, hx2, hy2⟩⟩
      · exact ⟨⟨t.z + 1, 2 * t.x + 1, 2 * t.y + 1⟩, by simp [tile_children],
          (ih _).mpr ⟨by show s.z = t.z + 1 + d; omega, hx2, hy2⟩⟩

theorem create_archive_tiles_eq (z x y cz : ℕ) :
    create_archive_tiles z x y cz = children_to_depth ⟨z, x, y⟩ (cz - z) := by
  rw [create_archive_tiles]
  split
  · next h => subst h; rw [Nat.sub_self]; rfl
  · rfl

/-- C5 (amended): both consumers attribute to the archive of macrotile
`(z, x, y, child_z)` exactly the `4 ^ (child_z - z)` descendant tiles at
zoom `child_z` — bundle assembly lists precisely the tiles at zoom
`child_z` whose zoom-`z` ancestor is the macrotile, and its count equals
the progress counter's `2 ^ (2 (child_z - z))` — not the full pyramid
`1 + 4 + ... + 4 ^ (child_z - z)` of the original claim. -/
theorem archive_tile_attribution (z x y cz : ℕ) (hzcz : z ≤ cz) :
    (create_archive_tiles z x y cz).length = count_children_one z cz ∧
      ∀ s : Tile, s ∈ create_archive_tiles z x y cz ↔
        s.z = cz ∧ s.x / 2 ^ (cz - z) = x ∧ s.y / 2 ^ (cz - z) = y := by
  constructor
  · rw [create_archive_tiles_eq, length_children_to_depth, count_children_one,
      pow_mul]
    norm_num
  · intro s
    rw [create_archive_tiles_eq, mem_children_to_depth]
    constructor
    · rintro ⟨hz, hx, hy⟩
      exact ⟨by simp at hz; omega, hx, hy⟩
    · rintro ⟨hz, hx, hy⟩
      exact ⟨by simp; omega, hx, hy⟩

/-- Witness for C5 at the macrotile `(6, 0, 0)` with max zoom 7. -/
theorem archive_tile_attribution_witness :
    (create_archive_tiles 6 0 0 7).length = count_children_one 6 7 ∧
      ∀ s : Tile, s ∈ create_archive_tiles 6 0 0 7 ↔
        s.z = 7 ∧ s.x / 2 ^ (7 - 6) = 0 ∧ s.y / 2 ^ (7 - 6) = 0 :=
  archive_tile_attribution 6 0 0 7 (by decide)

/-- Counterexample to C5 as stated: for the macrotile `(6, 0, 0)` with max
zoom 7 the claimed pyramid has 5 tiles and contains the macrotile itself,
but the consumers attribute only the 4 zoom-7 children: the macrotile is
not among them and the progress counter counts 4. -/
theorem archive_tile_attribution_counterexample :
    Tile.mk 6 0 0 ∈ pyramid_tiles 6 0 0 7 ∧
      Tile.mk 6 0 0 ∉ create_archive_tiles 6 0 0 7 ∧
      pyramid_count 6 7 = 5 ∧ count_children_one 6 7 = 4 ∧
      (create_archive_tiles 6 0 0 7).length = 4 := by
  decide

theorem uint8_cast_eq_floor (x : ℚ) (hx0 : 0 ≤ x) (hx : x < 256) :
    (uint8_cast x : ℤ) = ⌊x⌋ := by
  have h1 : 0 ≤ ⌊x⌋ := Int.floor_nonneg.mpr hx0
  have h2 : ⌊x⌋ < 256 := Int.floor_lt.mpr (by exact_mod_cast hx)
  rw [uint8_cast, Nat.mod_eq_of_lt (by omega), Int.toNat_of_nonneg h1]

theorem clamp255_eq (k : ℤ) (h0 : 0 ≤ k) (h255 : k ≤ 255) : clamp255 k = k := by
  rw [clamp255, min_eq_left h255, max_eq_right h0]

/-- C8 (amended): the encoder computes `v = h + 32768` and casts
`⌊v / 256⌋`, `⌊v mod 256⌋` and `⌊(v - ⌊v⌋) * 256⌋` to uint8 — a mod-256
wrap, not a clamp (see the counterexample at `h = 32768`); for every
elevation with `0 ≤ h + 32768 < 65536` the channels coincide with the
clamped formulas of the spec and decoding recovers `h` with
`0 ≤ h - h' < 1/256`. -/
theorem terrarium_round_trip (h : ℚ) (hlo : -32768 ≤ h) (hhi : h < 32768) :
    ((optimize_terrarium_encoding h).1 : ℤ) = (terrarium_encode_clamped h).1 ∧
      ((optimize_terrarium_encoding h).2.1 : ℤ) = (terrarium_encode_clamped h).2.1 ∧
      ((optimize_terrarium_encoding h).2.2 : ℤ) = (terrarium_encode_clamped h).2.2 ∧
      0 ≤ h - decode_terrarium (optimize_terrarium_encoding h).1
          (optimize_terrarium_encoding h).2.1 (optimize_terrarium_encoding h).2.2 ∧
      h - decode_terrarium (optimize_terrarium_encoding h).1
          (optimize_terrarium_encoding h).2.1 (optimize_terrarium_encoding h).2.2 <
        1 / 256 := by
  simp only [optimize_terrarium_encoding, terrarium_encode_clamped]
  set v : ℚ := h + 32768 with hv
  have hv0 : 0 ≤ v := by rw [hv]; linarith
  have hv65536 : v < 65536 := by rw [hv]; linarith
  -- the red channel
  have hf0 : 0 ≤ ⌊v / 256⌋ := Int.floor_nonneg.mpr (div_nonneg hv0 (by norm_num))
  have hf256 : ⌊v / 256⌋ < 256 := Int.floor_lt.mpr (by
    rw [div_lt_iff₀ (by norm_num : (0:ℚ) < 256)]
    push_cast
    linarith)
  have hfle : ((⌊v / 256⌋ : ℤ) : ℚ) ≤ v / 256 := Int.floor_le _
  have hR : (uint8_cast (pyfloordiv v 256) : ℤ) = ⌊v / 256⌋ := by
    rw [pyfloordiv, uint8_cast_eq_floor _ (by exact_mod_cast hf0)
      (by exact_mod_cast hf256), Int.floor_intCast]
  -- the green channel
  have hg0 : 0 ≤ pymod v 256 := by
    rw [pymod]
    have h256 : ((⌊v / 256⌋ : ℤ) : ℚ) * 256 ≤ v := by
      rw [← le_div_iff₀ (by norm_num : (0:ℚ) < 256)]
      exact hfle
    linarith
  have hg256 : pymod v 256 < 256 := by
    rw [pymod]
    have h256 : v < (((⌊v / 256⌋ : ℤ) : ℚ) + 1) * 256 := by
      rw [← div_lt_iff₀ (by norm_num : (0:ℚ) < 256)]
      exact Int.lt_floor_add_one _
    linarith
  have hGfloor : ⌊pymod v 256⌋ = ⌊v⌋ - 256 * ⌊v / 256⌋ := by
    rw [pymod, show (256 : ℚ) * ((⌊v / 256⌋ : ℤ) : ℚ) = ((256 * ⌊v / 256⌋ : ℤ) : ℚ) from by
      push_cast; ring]
    exact Int.floor_sub_int v _
  have hG : (uint8_cast (pymod v 256) : ℤ) = ⌊pymod v 256⌋ :=
    uint8_cast_eq_floor _ hg0 hg256
  have hGle0 : 0 ≤ ⌊pymod v 256⌋ := Int.floor_nonneg.mpr hg0
  have hGlt : ⌊pymod v 256⌋ < 256 := Int.floor_lt.mpr (by exact_mod_cast hg256)
  -- the blue channel
  have hfr0 : 0 ≤ v - ((⌊v⌋ : ℤ) : ℚ) := sub_nonneg.mpr (Int.floor_le v)
  have hfr1 : v - ((⌊v⌋ : ℤ) : ℚ) < 1 := by
    have := Int.lt_floor_add_one v
    linarith
  have hbf0 : 0 ≤ (v - ((⌊v⌋ : ℤ) : ℚ)) * 256 := mul_nonneg hfr0 (by norm_num)
  have hbf256 : (v - ((⌊v⌋ : ℤ) : ℚ)) * 256 < 256 := by nlinarith
  have hB : (uint8_cast ((v - ((⌊v⌋ : ℤ) : ℚ)) * 256) : ℤ) =
      ⌊(v - ((⌊v⌋ : ℤ) : ℚ)) * 256⌋ := uint8_cast_eq_floor _ hbf0 hbf256
  have hBle0 : 0 ≤ ⌊(v - ((⌊v⌋ : ℤ) : ℚ)) * 256⌋ := Int.floor_nonneg.mpr hbf0
  have hBlt : ⌊(v - ((⌊v⌋ : ℤ) : ℚ)) * 256⌋ < 256 := Int.floor_lt.mpr (by
    exact_mod_cast hbf256)
  refine ⟨?_, ?_, ?_, ?_, ?_⟩
  · rw [hR, clamp255_eq _ hf0 (by omega)]
  · rw [hG, clamp255_eq _ hGle0 (by omega)]
  · rw [hB, clamp255_eq _ hBle0 (by omega)]
  · rw [decode_terrarium]
    have hRq : ((uint8_cast (pyfloordiv v 256) : ℕ) : ℚ) = ((⌊v / 256⌋ : ℤ) : ℚ) := by
      exact_mod_cast hR
    have hGq : ((uint8_cast (pymod v 256) : ℕ) : ℚ) =
        ((⌊v⌋ : ℤ) : ℚ) - 256 * ((⌊v / 256⌋ : ℤ) : ℚ) := by
      rw [show ((uint8_cast (pymod v 256) : ℕ) : ℚ) = ((⌊pymod v 256⌋ : ℤ) : ℚ) from by
        exact_mod_cast hG, hGfloor]
      push_cast
      ring
    have hBq : ((uint8_cast ((v - ((⌊v⌋ : ℤ) : ℚ)) * 256) : ℕ) : ℚ) =
        ((⌊(v - ((⌊v⌋ : ℤ) : ℚ)) * 256⌋ : ℤ) : ℚ) := by exact_mod_cast hB
    rw [hRq, hGq, hBq]
    have hfle2 : ((⌊(v - ((⌊v⌋ : ℤ) : ℚ)) * 256⌋ : ℤ) : ℚ) ≤
        (v - ((⌊v⌋ : ℤ) : ℚ)) * 256 := Int.floor_le _
    rw [hv]
    linarith
  · rw [decode_terrarium]
    have hRq : ((uint8_cast (pyfloordiv v 256) : ℕ) : ℚ) = ((⌊v / 256⌋ : ℤ) : ℚ) := by
      exact_mod_cast hR
    have hGq : ((uint8_cast (pymod v 256) : ℕ) : ℚ) =
        ((⌊v⌋ : ℤ) : ℚ) - 256 * ((⌊v / 256⌋ : ℤ) : ℚ) := by
      rw [show ((uint8_cast (pymod v 256) : ℕ) : ℚ) = ((⌊pymod v 256⌋ : ℤ) : ℚ) from by
        exact_mod_cast hG, hGfloor]
      push_cast
      ring
    have hBq : ((uint8_cast ((v - ((⌊v⌋ : ℤ) : ℚ)) * 256) : ℕ) : ℚ) =
        ((⌊(v - ((⌊v⌋ : ℤ) : ℚ)) * 256⌋ : ℤ) : ℚ) := by exact_mod_cast hB
    rw [hRq, hGq, hBq]
    have hfgt : (v - ((⌊v⌋ : ℤ) : ℚ)) * 256 <
        ((⌊(v - ((⌊v⌋ : ℤ) : ℚ)) * 256⌋ : ℤ) : ℚ) + 1 := Int.lt_floor_add_one _
    rw [hv]
    linarith

/-- Witness for C8 at elevation 100 (an in-range value). -/
theorem terrarium_round_trip_witness :
    (-32768 : ℚ) ≤ 100 ∧
      (((optimize_terrarium_encoding 100).1 : ℤ) = (terrarium_encode_clamped 100).1 ∧
        ((optimize_terrarium_encoding 100).2.1 : ℤ) = (terrarium_encode_clamped 100).2.1 ∧
        ((optimize_terrarium_encoding 100).2.2 : ℤ) = (terrarium_encode_clamped 100).2.2 ∧
        0 ≤ 100 - decode_terrarium (optimize_terrarium_encoding 100).1
            (optimize_terrarium_encoding 100).2.1 (optimize_terrarium_encoding 100).2.2 ∧
        100 - decode_terrarium (optimize_terrarium_encoding 100).1
            (optimize_terrarium_encoding 100).2.1 (optimize_terrarium_encoding 100).2.2 <
          1 / 256) :=
  ⟨by decide, terrarium_round_trip 100 (by decide) (by decide)⟩

/-- Counterexample to C8 as stated: at elevation 32768 (so `v = 65536`)
the uint8 cast wraps the red channel to 0, whereas the claimed clamping
yields 255. -/
theorem terrarium_clamp_counterexample :
    (optimize_terrarium_encoding 32768).1 = 0 ∧
      (terrarium_encode_clamped 32768).1 = 255 ∧ (0 : ℤ) ≠ 255 := by
  have hfloor : ⌊(32768 + 32768 : ℚ) / 256⌋ = 256 := by
    rw [show (32768 + 32768 : ℚ) / 256 = ((256 : ℤ) : ℚ) from by norm_num]
    exact Int.floor_intCast 256
  refine ⟨?_, ?_, by decide⟩
  · simp only [optimize_terrarium_encoding, pyfloordiv, uint8_cast, hfloor,
      Int.floor_intCast]
    rfl
  · simp only [terrarium_encode_clamped, hfloor, clamp255]
    rfl

end Mapterhorn
